import Mathlib

/-!
# Verification of the Zen Digital Bracelet animation core

Shallow embedding of the gesture-to-motion mapper, bead letter-shell
animator, letter emission controller, floating-letter pool and ring
assembly of the `DigitalBracelet` React Three Fiber component
(`components/DigitalBracelet.tsx`), together with proofs of the
specified properties.

JavaScript numbers are modelled as `FP`: either `NaN` or an exact
rational value.  All constants in the source are exactly representable
decimals, so rational arithmetic is exact.  Comparisons follow IEEE/JS
semantics: every comparison with `NaN` is false.  Division occurs in
the source only behind a guard that makes the divisor strictly
positive, so the rational division used here agrees with JS division
at every reachable call.
-/

/-- A JavaScript number: `NaN` or an exact rational value. -/
inductive FP where
  | nan : FP
  | val : ℚ → FP
deriving DecidableEq, Repr

namespace FP

/-- JS addition: `NaN` poisons. -/
def add : FP → FP → FP
  | nan, _ => nan
  | _, nan => nan
  | val a, val b => val (a + b)

/-- JS subtraction: `NaN` poisons. -/
def sub : FP → FP → FP
  | nan, _ => nan
  | _, nan => nan
  | val a, val b => val (a - b)

/-- JS multiplication: `NaN` poisons. -/
def mul : FP → FP → FP
  | nan, _ => nan
  | _, nan => nan
  | val a, val b => val (a * b)

/-- JS strict `>`: false whenever either side is `NaN`. -/
def gt : FP → FP → Bool
  | nan, _ => false
  | _, nan => false
  | val a, val b => decide (a > b)

/-- JS strict `<`: false whenever either side is `NaN`. -/
def lt : FP → FP → Bool
  | nan, _ => false
  | _, nan => false
  | val a, val b => decide (a < b)

end FP

/-- `THREE.MathUtils.lerp(x, y, t) = (1 - t) * x + t * y`, lifted to `FP`. -/
def fpLerp (x y t : FP) : FP :=
  FP.add (FP.mul (FP.sub (FP.val 1) t) x) (FP.mul t y)

/-- `THREE.MathUtils.lerp` on exact rationals: `(1 - t) * x + t * y`. -/
def qlerp (x y t : ℚ) : ℚ := (1 - t) * x + t * y

/-- `MotionState`: the mapper-owned state, `rotationSpeedRef` and
`isScatteredRef` in the source.  The speed is an `FP` so that
NaN-freedom is a theorem, not a typing assumption. -/
structure MotionState where
  rotationSpeed : FP
  scattered : Bool
deriving DecidableEq, Repr

/-- Initial motion state: `useRef(0)` and `useRef(false)`. -/
def initMotion : MotionState := ⟨FP.val 0, false⟩

/-- `PINCH_THRESHOLD = 0.06`. -/
def PINCH_THRESHOLD : ℚ := 0.06

/-- `SCATTER_THRESHOLD = 0.18`. -/
def SCATTER_THRESHOLD : ℚ := 0.18

/-- The interaction logic at the top of `DigitalBracelet`'s `useFrame`
callback: branch on `isHandPresent` / `handDistance` and update
`isScatteredRef` and `rotationSpeedRef` by one `THREE.MathUtils.lerp`
step. -/
def motionStep (isHandPresent : Bool) (handDistance : FP) (m : MotionState) :
    MotionState :=
  if isHandPresent then
    if FP.gt handDistance (FP.val SCATTER_THRESHOLD) then
      { rotationSpeed := fpLerp m.rotationSpeed (FP.val 0) (FP.val 0.1)
        scattered := true }
    else if FP.lt handDistance (FP.val PINCH_THRESHOLD) then
      { rotationSpeed := fpLerp m.rotationSpeed (FP.val 2.0) (FP.val 0.05)
        scattered := false }
    else
      { rotationSpeed := fpLerp m.rotationSpeed (FP.val 0) (FP.val 0.05)
        scattered := false }
  else
    { rotationSpeed := fpLerp m.rotationSpeed (FP.val 0.2) (FP.val 0.05)
      scattered := false }

/-- The per-frame hand signal handed to the mapper. -/
structure HandSignal where
  distance : FP
  present : Bool
deriving DecidableEq, Repr

/-- Run the mapper over a sequence of per-frame hand signals. -/
def motionRun (frames : List HandSignal) (m : MotionState) : MotionState :=
  frames.foldl (fun s f => motionStep f.present f.distance s) m

/-- The smoothing primitive exactly as the specification words it:
`value := value + (target - value) * f`, lifted to `FP`. -/
def fpSmooth (value target f : FP) : FP :=
  FP.add value (FP.mul (FP.sub target value) f)

/-- The four-branch priority policy exactly as the specification words
it: no-hand first, then the scatter threshold, then the pinch
threshold, then the intermediate branch, each doing one smoothing step
`value + (target - value) * factor`. -/
def motionStepSpec (isHandPresent : Bool) (handDistance : FP) (m : MotionState) :
    MotionState :=
  if ¬ isHandPresent then
    { rotationSpeed := fpSmooth m.rotationSpeed (FP.val 0.2) (FP.val 0.05)
      scattered := false }
  else if FP.gt handDistance (FP.val 0.18) then
    { rotationSpeed := fpSmooth m.rotationSpeed (FP.val 0) (FP.val 0.1)
      scattered := true }
  else if FP.lt handDistance (FP.val 0.06) then
    { rotationSpeed := fpSmooth m.rotationSpeed (FP.val 2.0) (FP.val 0.05)
      scattered := false }
  else
    { rotationSpeed := fpSmooth m.rotationSpeed (FP.val 0) (FP.val 0.05)
      scattered := false }

/-- `rotationSpeed` is a genuine (non-NaN) number lying in `[0, 2]`. -/
def speedBounded (m : MotionState) : Prop :=
  ∃ q : ℚ, m.rotationSpeed = FP.val q ∧ 0 ≤ q ∧ q ≤ 2

/-- A `THREE.Vector3` with exact rational coordinates. -/
structure Vec3 where
  x : ℚ
  y : ℚ
  z : ℚ
deriving DecidableEq, Repr

/-- `scatterIntensity={isHandPresent ? handDistance * 5 : 0}` — the
intensity prop handed to every bead. -/
def scatterIntensity (isHandPresent : Bool) (handDistance : FP) : FP :=
  if isHandPresent then FP.mul handDistance (FP.val 5) else FP.val 0

/-- The spawn position built by `handleEmitLetter`:
`x: origin.x + rnd(-0.2, 0.2), y: origin.y + rnd(-0.2, 0.2), z: origin.z`.
The random jitter draws are passed in as `jx`, `jy`. -/
def handleEmitLetterPos (origin : Vec3) (jx jy : ℚ) : Vec3 :=
  ⟨origin.x + jx, origin.y + jy, origin.z⟩

/-- The emit-letter logic in `Bead`'s `useFrame` (step 3 of the
callback): gate on `rotationVal > 0.01 && !isScattered`, then emit and
reset `lastEmitRef` when `now - lastEmitRef > 1.0 / (rotationVal * 10 +
0.1)`.  Returns the spawned letter position (if any) and the new
`lastEmitRef` value. -/
def beadEmitStep (rotationVal : ℚ) (isScattered : Bool) (now lastEmit : ℚ)
    (worldPos : Vec3) (jx jy : ℚ) : Option Vec3 × ℚ :=
  if rotationVal > 0.01 ∧ isScattered = false then
    if now - lastEmit > 1.0 / (rotationVal * 10 + 0.1) then
      (some (handleEmitLetterPos worldPos jx jy), now)
    else (none, lastEmit)
  else (none, lastEmit)

/-- Emission eligibility exactly as the specification words it. -/
def emissionEligible (rotationSpeed : ℚ) (scattered : Bool) : Bool :=
  decide (rotationSpeed > 0.01) && !scattered

/-- The emission interval exactly as the specification words it:
`1 / (rotationSpeed × 10 + 0.1)` seconds. -/
def emissionInterval (rotationSpeed : ℚ) : ℚ :=
  1 / (rotationSpeed * 10 + 0.1)

/-- The emission step exactly as the specification words it: when
eligible and the elapsed time since `lastEmitTime` exceeds the
interval, emit one letter at the bead's world position jittered on x/y
and reset `lastEmitTime` to now; otherwise change nothing. -/
def beadEmitStepSpec (rotationSpeed : ℚ) (scattered : Bool) (now lastEmit : ℚ)
    (worldPos : Vec3) (jx jy : ℚ) : Option Vec3 × ℚ :=
  if emissionEligible rotationSpeed scattered = true ∧
      now - lastEmit > emissionInterval rotationSpeed then
    (some ⟨worldPos.x + jx, worldPos.y + jy, worldPos.z⟩, now)
  else (none, lastEmit)

variable {α : Type*}

/-- `prev.slice(-80)`: the at-most-80 most recent elements. -/
def sliceLast (k : ℕ) (xs : List α) : List α := xs.drop (xs.length - k)

/-- The pool update in `handleEmitLetter`:
`setBackgroundLetters(prev => [...prev.slice(-80), newLetter])`. -/
def handleEmitLetter (pool : List α) (l : α) : List α :=
  sliceLast 80 pool ++ [l]

/-- A sequence of emission events applied to the pool in order. -/
def emitRun (pool : List α) (ls : List α) : List α :=
  ls.foldl handleEmitLetter pool

/-- Per-letter animated state: `child.position` and the x/y components
of `child.rotation`. -/
structure LetterState where
  pos : Vec3
  rotX : ℚ
  rotY : ℚ
deriving DecidableEq, Repr

/-- `THREE.Vector3.lerp(v, alpha)`: each coordinate moves by
`this.x += (v.x - this.x) * alpha`. -/
def lerpV (cur target : Vec3) (alpha : ℚ) : Vec3 :=
  ⟨cur.x + (target.x - cur.x) * alpha,
   cur.y + (target.y - cur.y) * alpha,
   cur.z + (target.z - cur.z) * alpha⟩

/-- The per-letter frame update in `Bead`'s `useFrame` (step 1 of the
callback).  `sine` stands for `Math.sin` and `normalize` for
`Vector3.normalize`, both passed as oracles so the development stays
executable; `time` is `state.clock.elapsedTime` and `i` the letter
index. -/
def beadLetterStep (sine : ℚ → ℚ) (normalize : Vec3 → Vec3)
    (isScattered : Bool) (scatterIntens : ℚ) (time : ℚ) (i : ℕ)
    (restPos : Vec3) (restRotX restRotY : ℚ) (st : LetterState) :
    LetterState :=
  if isScattered then
    let dir := normalize restPos
    let scatterDist := 5 + sine (time * 2 + i) * 2
    { pos := lerpV st.pos
        ⟨restPos.x + dir.x * scatterDist * scatterIntens,
         restPos.y + dir.y * scatterDist * scatterIntens,
         restPos.z + dir.z * scatterDist * scatterIntens⟩ 0.1
      rotX := st.rotX + 0.01
      rotY := st.rotY + 0.01 }
  else
    { pos := lerpV st.pos restPos 0.15
      rotX := qlerp st.rotX restRotX 0.1
      rotY := qlerp st.rotY restRotY 0.1 }

/-- Vector addition. -/
def addV (a b : Vec3) : Vec3 := ⟨a.x + b.x, a.y + b.y, a.z + b.z⟩

/-- Scalar multiple of a vector. -/
def smul3 (c : ℚ) (v : Vec3) : Vec3 := ⟨c * v.x, c * v.y, c * v.z⟩

/-- The per-letter frame update exactly as the specification words it:
when scattered, one smoothing step of factor 0.1 toward
`restPosition + normalize(restPosition) × (5 + 2·sin(2·time + i)) ×
intensity` and a constant rotation increment; otherwise one smoothing
step of factor 0.15 toward `restPosition` and rotation smoothing of
factor 0.1 toward the rest rotation, with the smoothing primitive
`value + (target - value) * f`. -/
def beadLetterStepSpec (sine : ℚ → ℚ) (normalize : Vec3 → Vec3)
    (isScattered : Bool) (scatterIntens : ℚ) (time : ℚ) (i : ℕ)
    (restPos : Vec3) (restRotX restRotY : ℚ) (st : LetterState) :
    LetterState :=
  if isScattered then
    { pos := lerpV st.pos
        (addV restPos
          (smul3 ((5 + 2 * sine (2 * time + i)) * scatterIntens)
            (normalize restPos))) 0.1
      rotX := st.rotX + 0.01
      rotY := st.rotY + 0.01 }
  else
    { pos := lerpV st.pos restPos 0.15
      rotX := st.rotX + (restRotX - st.rotX) * 0.1
      rotY := st.rotY + (restRotY - st.rotY) * 0.1 }

/-- The inputs a bead letter sees on one frame. -/
structure LetterFrameIn where
  scattered : Bool
  intensity : ℚ
  time : ℚ
deriving DecidableEq, Repr

/-- Run the per-letter update over a sequence of frames. -/
def letterRun (sine : ℚ → ℚ) (normalize : Vec3 → Vec3) (i : ℕ)
    (restPos : Vec3) (restRotX restRotY : ℚ)
    (frames : List LetterFrameIn) (st : LetterState) : LetterState :=
  frames.foldl
    (fun s f => beadLetterStep sine normalize f.scattered f.intensity f.time i
      restPos restRotX restRotY s) st

/-- The L∞ distance between two points, used to state convergence. -/
def distInf (a b : Vec3) : ℚ :=
  max |a.x - b.x| (max |a.y - b.y| |a.z - b.z|)

/-- Composed idle-frame state: the mapper state, the bead's
`lastEmitRef`, and how many letters that bead has emitted. -/
structure IdleSt where
  motion : MotionState
  lastEmit : ℚ
  emitCount : ℕ
deriving DecidableEq, Repr

/-- One frame at clock time `t` with no hand present: the mapper update
followed by the bead's emission check in the very same frame (the
single-writer-then-readers order of the render callback).  The NaN arm
is unreachable: the mapper keeps the speed a genuine number. -/
def idleFrame (t : ℚ) (st : IdleSt) : IdleSt :=
  let m := motionStep false (FP.val 0) st.motion
  match m.rotationSpeed with
  | FP.nan => ⟨m, st.lastEmit, st.emitCount⟩
  | FP.val s =>
    let r := beadEmitStep s m.scattered t st.lastEmit ⟨0, 0, 0⟩ 0 0
    ⟨m, r.2, st.emitCount + (if r.1.isSome then 1 else 0)⟩

/-- Run idle (hand absent) frames at the given clock times, from the
initial refs (`rotationSpeedRef = 0`, `isScatteredRef = false`,
`lastEmitRef = 0`). -/
def idleRun (ts : List ℚ) : IdleSt :=
  ts.foldl (fun st t => idleFrame t st) ⟨initMotion, 0, 0⟩

/-- The mapper state after `n` idle (hand absent) frames. -/
def idleMotionN (n : ℕ) : MotionState :=
  motionRun (List.replicate n ⟨FP.val 0, false⟩) initMotion

/-- The `DigitalBracelet` frame callback: the mapper update followed by
the ring-assembly rotation
`containerRef.rotation.z += rotationSpeedRef.current * delta * 0.5` —
the one update written in terms of the frame's `delta`. -/
def braceletFrame (delta : ℚ) (isHandPresent : Bool) (handDistance : FP)
    (m : MotionState) (ringRot : FP) : MotionState × FP :=
  let m' := motionStep isHandPresent handDistance m
  (m', FP.add ringRot (FP.mul (FP.mul m'.rotationSpeed (FP.val delta))
    (FP.val 0.5)))

/-- `Bead`'s body rotation (step 2 of its callback):
`rotation.x += rotationVal * 0.1; rotation.y += rotationVal * 0.05`.
The callback does not even receive `delta`. -/
def beadBodyStep (rotationVal rotX rotY : ℚ) : ℚ × ℚ :=
  (rotX + rotationVal * 0.1, rotY + rotationVal * 0.05)

/-- A floating background letter's animated state. -/
structure FloatState where
  pos : Vec3
  rotX : ℚ
  rotY : ℚ
deriving DecidableEq, Repr

/-- `FloatingLetter`'s per-frame update: drift `pos += speed`, then
`rotation.x += delta * 0.2` and
`rotation.y += delta * 0.2 + globalRotationSpeed * 0.05`. -/
def floatingLetterFrame (delta globalRotationSpeed : ℚ)
    (speedX speedY speedZ : ℚ) (st : FloatState) : FloatState :=
  { pos := ⟨st.pos.x + speedX, st.pos.y + speedY, st.pos.z + speedZ⟩
    rotX := st.rotX + delta * 0.2
    rotY := st.rotY + delta * 0.2 + globalRotationSpeed * 0.05 }

-- All definitions of the embedding end here; the theorems follow.

/-- One `THREE.MathUtils.lerp` step equals one spec smoothing step. -/
theorem fpLerp_eq_fpSmooth (x y t : FP) : fpLerp x y t = fpSmooth x y t := by
  cases x <;> cases y <;> cases t <;>
    simp [fpLerp, fpSmooth, FP.add, FP.sub, FP.mul] <;> ring

theorem qlerp_mem (x y t : ℚ) (hx0 : 0 ≤ x) (hx2 : x ≤ 2) (hy0 : 0 ≤ y)
    (hy2 : y ≤ 2) (ht0 : 0 ≤ t) (ht1 : t ≤ 1) :
    0 ≤ qlerp x y t ∧ qlerp x y t ≤ 2 := by
  unfold qlerp
  constructor <;> nlinarith

theorem fpLerp_val (q y t : ℚ) :
    fpLerp (FP.val q) (FP.val y) (FP.val t) = FP.val (qlerp q y t) := rfl

theorem motionStep_bounded (p : Bool) (d : FP) (m : MotionState)
    (h : speedBounded m) : speedBounded (motionStep p d m) := by
  obtain ⟨q, hq, h0, h2⟩ := h
  unfold motionStep
  split <;> [skip; exact ⟨qlerp q 0.2 0.05, by rw [hq]; rfl,
    qlerp_mem q 0.2 0.05 h0 h2 (by norm_num) (by norm_num) (by norm_num)
      (by norm_num)⟩]
  split
  · exact ⟨qlerp q 0 0.1, by rw [hq]; rfl,
      qlerp_mem q 0 0.1 h0 h2 le_rfl (by norm_num) (by norm_num) (by norm_num)⟩
  split
  · exact ⟨qlerp q 2.0 0.05, by rw [hq]; rfl,
      qlerp_mem q 2.0 0.05 h0 h2 (by norm_num) (by norm_num) (by norm_num)
        (by norm_num)⟩
  · exact ⟨qlerp q 0 0.05, by rw [hq]; rfl,
      qlerp_mem q 0 0.05 h0 h2 le_rfl (by norm_num) (by norm_num) (by norm_num)⟩

theorem motionRun_bounded (frames : List HandSignal) (m : MotionState)
    (h : speedBounded m) : speedBounded (motionRun frames m) := by
  induction frames generalizing m with
  | nil => exact h
  | cons f fs ih => exact ih _ (motionStep_bounded f.present f.distance m h)

/-- C2: starting from the initial rotation speed 0, after any sequence
of per-frame hand signals (arbitrary presence flags and arbitrary
distances, NaN included) the rotation speed is a genuine number within
`[0, 2]`: never NaN, never negative, never above the largest
exponential-approach target. -/
theorem motionRun_speed_in_range (frames : List HandSignal) :
    ∃ q : ℚ, (motionRun frames initMotion).rotationSpeed = FP.val q ∧
      0 ≤ q ∧ q ≤ 2 :=
  motionRun_bounded frames initMotion ⟨0, rfl, le_rfl, by norm_num⟩

/-- C1: the frame update of the mapper coincides with the four-branch
priority policy of the specification: no hand → smooth toward 0.2 with
factor 0.05 and `scattered := false`; else distance > 0.18 → smooth
toward 0 with factor 0.1 and `scattered := true`; else distance < 0.06
→ smooth toward 2.0 with factor 0.05 and `scattered := false`; else
smooth toward 0 with factor 0.05 and `scattered := false` — one
smoothing step `value + (target - value) * factor` per frame. -/
theorem motionStep_eq_spec (isHandPresent : Bool) (handDistance : FP)
    (m : MotionState) :
    motionStep isHandPresent handDistance m =
      motionStepSpec isHandPresent handDistance m := by
  cases isHandPresent <;>
    simp [motionStep, motionStepSpec, fpLerp_eq_fpSmooth,
      PINCH_THRESHOLD, SCATTER_THRESHOLD]

/-- C3: the per-bead emission logic coincides with the specification: a
letter is emitted only when `rotationVal > 0.01` and not scattered;
when eligible the interval is `1 / (rotationVal * 10 + 0.1)` seconds; a
letter spawns at the bead's world position jittered on x and y exactly
when the elapsed time since `lastEmitTime` exceeds that interval, and
`lastEmitTime` is then reset to now. -/
theorem beadEmitStep_eq_spec (rotationVal : ℚ) (isScattered : Bool)
    (now lastEmit : ℚ) (worldPos : Vec3) (jx jy : ℚ) :
    beadEmitStep rotationVal isScattered now lastEmit worldPos jx jy =
      beadEmitStepSpec rotationVal isScattered now lastEmit worldPos jx jy := by
  have h10 : (1.0 : ℚ) / (rotationVal * 10 + 0.1) = emissionInterval rotationVal := by
    unfold emissionInterval
    norm_num
  have helig : emissionEligible rotationVal isScattered = true ↔
      (rotationVal > 0.01 ∧ isScattered = false) := by
    simp [emissionEligible]
  unfold beadEmitStep beadEmitStepSpec handleEmitLetterPos
  rw [h10]
  by_cases h1 : rotationVal > 0.01 ∧ isScattered = false <;>
    by_cases h2 : now - lastEmit > emissionInterval rotationVal
  · rw [if_pos h1, if_pos h2, if_pos ⟨helig.mpr h1, h2⟩]
  · rw [if_pos h1, if_neg h2, if_neg (by tauto)]
  · rw [if_neg h1, if_neg (by tauto)]
  · rw [if_neg h1, if_neg (by tauto)]

theorem sliceLast_suffix (xs : List α) (k : ℕ) : sliceLast k xs <:+ xs :=
  ⟨xs.take (xs.length - k), List.take_append_drop _ _⟩

theorem sliceLast_length_le (xs : List α) : (sliceLast 80 xs).length ≤ 80 := by
  simp [sliceLast]
  omega

theorem handleEmitLetter_length_le (pool : List α) (l : α) :
    (handleEmitLetter pool l).length ≤ 81 := by
  simp only [handleEmitLetter, List.length_append, List.length_singleton]
  have := sliceLast_length_le pool
  omega

theorem emitRun_length_le (es : List α) (pool : List α)
    (h : pool.length ≤ 81) : (emitRun pool es).length ≤ 81 := by
  induction es generalizing pool with
  | nil => exact h
  | cons e es ih => exact ih _ (handleEmitLetter_length_le pool e)

/-- C4: the floating-letter pool obeys a sliding-window cap: each
insertion keeps at most the 80 most-recent previously-existing letters
(a suffix of the pool, so eviction happens at the front) plus the new
one, hence at most 81 letters; and starting from the 50-letter ambient
batch, any sequence of emission events leaves the pool at size at most
81. -/
theorem handleEmitLetter_cap :
    (∀ (pool : List ℕ) (l : ℕ),
      handleEmitLetter pool l = pool.drop (pool.length - 80) ++ [l] ∧
      sliceLast 80 pool <:+ pool ∧
      (handleEmitLetter pool l).length ≤ 81) ∧
    ∀ ambient : List ℕ, ambient.length = 50 →
      ∀ es : List ℕ, (emitRun ambient es).length ≤ 81 := by
  refine ⟨fun pool l => ⟨rfl, sliceLast_suffix pool 80,
    handleEmitLetter_length_le pool l⟩, fun ambient h es => ?_⟩
  exact emitRun_length_le es ambient (by omega)

/-- Witness for C4 at a concrete ambient batch and emission sequence. -/
theorem handleEmitLetter_cap_witness :
    (List.range 50).length = 50 ∧
      (emitRun (List.range 50) (List.range 100)).length ≤ 81 :=
  ⟨by decide, handleEmitLetter_cap.2 (List.range 50) (by decide)
    (List.range 100)⟩

/-- C10: when no hand is present the frame update is independent of the
distance value: two equal-length runs over no-hand frames with
arbitrary distances (stale, negative or NaN) from the same starting
state produce identical motion states, and the scatter intensity handed
to every bead is 0 in both runs. -/
theorem noHand_noninterference (m : MotionState) (ds1 ds2 : List FP)
    (h : ds1.length = ds2.length) :
    motionRun (ds1.map fun d => ⟨d, false⟩) m =
      motionRun (ds2.map fun d => ⟨d, false⟩) m ∧
    ∀ d : FP, scatterIntensity false d = FP.val 0 := by
  refine ⟨?_, fun d => rfl⟩
  induction ds1 generalizing ds2 m with
  | nil =>
    rw [List.length_nil] at h
    rw [List.eq_nil_of_length_eq_zero h.symm]
  | cons d1 t1 ih =>
    cases ds2 with
    | nil => simp at h
    | cons d2 t2 =>
      simp only [List.length_cons, Nat.add_right_cancel_iff] at h
      simp only [List.map_cons, motionRun, List.foldl_cons]
      have hstep : motionStep false d1 m = motionStep false d2 m := by
        simp [motionStep]
      rw [hstep]
      exact ih (motionStep false d2 m) t2 h

/-- C8: the per-letter frame update coincides with the specification:
when scattered the position takes one smoothing step of factor 0.1
toward `restPosition + normalize(restPosition) × (5 + 2·sin(2·time +
letterIndex)) × intensity` and the rotation increments by a small
constant step; otherwise the position takes one smoothing step of
factor 0.15 toward `restPosition` and the x/y rotation smooths toward
the rest rotation with factor 0.1; and the intensity handed to the
beads is `distance × 5` when the hand is present and 0 otherwise. -/
theorem beadLetterStep_eq_spec :
    (∀ (sine : ℚ → ℚ) (normalize : Vec3 → Vec3) (isScattered : Bool)
      (scatterIntens time : ℚ) (i : ℕ) (restPos : Vec3)
      (restRotX restRotY : ℚ) (st : LetterState),
      beadLetterStep sine normalize isScattered scatterIntens time i restPos
          restRotX restRotY st =
        beadLetterStepSpec sine normalize isScattered scatterIntens time i
          restPos restRotX restRotY st) ∧
    ∀ (present : Bool) (q : ℚ),
      scatterIntensity present (FP.val q) =
        FP.val (if present then q * 5 else 0) := by
  constructor
  · intro sine normalize isScattered scatterIntens time i restPos rrx rry st
    have harg : time * 2 + (i : ℚ) = 2 * time + (i : ℚ) := by ring
    cases isScattered with
    | false =>
      simp only [beadLetterStep, beadLetterStepSpec, Bool.false_eq_true,
        if_false, LetterState.mk.injEq, qlerp]
      and_intros <;> first | trivial | ring
    | true =>
      simp only [beadLetterStep, beadLetterStepSpec, if_true, harg,
        LetterState.mk.injEq, lerpV, addV, smul3, Vec3.mk.injEq]
      and_intros <;> first | trivial | ring
  · intro present q
    cases present <;> simp [scatterIntensity, FP.mul]

/-- C7 counterexample: the floating-letter rotation update is scaled by
the frame's delta time — deltas 1 and 2 give different rotations from
the same state — contradicting that the ring-assembly rotation is the
only delta-scaled per-frame update. -/
theorem floatingLetter_rot_depends_on_delta :
    (floatingLetterFrame 1 0 0 0 0 ⟨⟨0, 0, 0⟩, 0, 0⟩).rotX ≠
      (floatingLetterFrame 2 0 0 0 0 ⟨⟨0, 0, 0⟩, 0, 0⟩).rotX := by
  norm_num [floatingLetterFrame]

/-- C7 (amended): the ring-assembly rotation and the floating-letter
rotation both scale by the frame's delta time, while the mapper state
update and the floating-letter positional drift are independent of
delta (and the bead letter/body updates take no delta at all). -/
theorem deltaTime_usage :
    (∀ (d1 d2 : ℚ) (p : Bool) (dist : FP) (m : MotionState) (r : FP),
      (braceletFrame d1 p dist m r).1 = (braceletFrame d2 p dist m r).1) ∧
    (braceletFrame 1 false (FP.val 0) initMotion (FP.val 0)).2 ≠
      (braceletFrame 2 false (FP.val 0) initMotion (FP.val 0)).2 ∧
    (∀ (d1 d2 g sx sy sz : ℚ) (st : FloatState),
      (floatingLetterFrame d1 g sx sy sz st).pos =
        (floatingLetterFrame d2 g sx sy sz st).pos) ∧
    (floatingLetterFrame 1 0 0 0 0 ⟨⟨0, 0, 0⟩, 0, 0⟩).rotY ≠
      (floatingLetterFrame 3 0 0 0 0 ⟨⟨0, 0, 0⟩, 0, 0⟩).rotY :=
  ⟨fun _ _ _ _ _ _ => rfl,
    by norm_num [braceletFrame, motionStep, initMotion, fpLerp, FP.mul,
      FP.add, FP.sub],
    fun _ _ _ _ _ _ _ => rfl,
    by norm_num [floatingLetterFrame]⟩

theorem motionStep_noHand (d : FP) (m : MotionState) (s : ℚ)
    (h : m.rotationSpeed = FP.val s) :
    motionStep false d m = ⟨FP.val (qlerp s 0.2 0.05), false⟩ := by
  cases m with
  | mk sp sc =>
    simp only at h
    subst h
    rfl

theorem idleMotionN_succ (n : ℕ) :
    idleMotionN (n + 1) = motionStep false (FP.val 0) (idleMotionN n) := by
  unfold idleMotionN motionRun
  rw [List.replicate_succ', List.foldl_append]
  simp

theorem idleRun_123 :
    idleRun [1, 2, 3] = ⟨⟨FP.val 0.028525, false⟩, 3, 1⟩ := by
  have h1 : idleFrame 1 ⟨initMotion, 0, 0⟩ = ⟨⟨FP.val 0.01, false⟩, 0, 0⟩ := by
    norm_num [idleFrame, motionStep, initMotion, fpLerp, FP.mul, FP.add,
      FP.sub, beadEmitStep]
  have h2 : idleFrame 2 ⟨⟨FP.val 0.01, false⟩, 0, 0⟩ =
      ⟨⟨FP.val 0.0195, false⟩, 0, 0⟩ := by
    norm_num [idleFrame, motionStep, fpLerp, FP.mul, FP.add, FP.sub,
      beadEmitStep]
  have h3 : idleFrame 3 ⟨⟨FP.val 0.0195, false⟩, 0, 0⟩ =
      ⟨⟨FP.val 0.028525, false⟩, 3, 1⟩ := by
    norm_num [idleFrame, motionStep, fpLerp, FP.mul, FP.add, FP.sub,
      beadEmitStep, handleEmitLetterPos]
  simp only [idleRun, List.foldl_cons, List.foldl_nil, h1, h2, h3]

/-- C5 counterexample: with the hand absent on every frame (frames at
1 s, 2 s and 3 s), the idle spin-up passes the 0.01 emission gate and a
bead does emit a letter — refuting that no floating letter is ever
emitted under sustained absence. -/
theorem idle_emits_letter : (idleRun [1, 2, 3]).emitCount = 1 := by
  rw [idleRun_123]

/-- C5 (amended): sustained hand absence does not suppress emission: it
drives the rotation speed toward the idle value 0.2, so from the second
frame on the speed exceeds the 0.01 emission gate with
`scattered = false`, and a letter is emitted as soon as the elapsed time
exceeds the emission interval (as on the 1 s/2 s/3 s schedule). -/
theorem idle_spin_enables_emission :
    (∀ n : ℕ, 2 ≤ n → ∃ s : ℚ,
      (idleMotionN n).rotationSpeed = FP.val s ∧ 0.01 < s ∧
        (idleMotionN n).scattered = false) ∧
    (idleRun [1, 2, 3]).emitCount = 1 := by
  constructor
  · have key : ∀ k : ℕ, ∃ s : ℚ,
        (idleMotionN (k + 2)).rotationSpeed = FP.val s ∧ 0.0195 ≤ s ∧
          (idleMotionN (k + 2)).scattered = false := by
      intro k
      induction k with
      | zero =>
        have h2 : idleMotionN 2 = ⟨FP.val 0.0195, false⟩ := by
          norm_num [idleMotionN, motionRun, List.replicate, motionStep,
            initMotion, fpLerp, FP.mul, FP.add, FP.sub]
        exact ⟨0.0195, by rw [h2], le_rfl, by rw [h2]⟩
      | succ k ih =>
        obtain ⟨s, hs, hge, _⟩ := ih
        have hstep : idleMotionN (k + 1 + 2) =
            ⟨FP.val (qlerp s 0.2 0.05), false⟩ := by
          rw [show k + 1 + 2 = (k + 2) + 1 from rfl, idleMotionN_succ,
            motionStep_noHand _ _ s hs]
        refine ⟨qlerp s 0.2 0.05, by rw [hstep], ?_, by rw [hstep]⟩
        unfold qlerp
        nlinarith
    intro n hn
    obtain ⟨k, rfl⟩ := Nat.exists_eq_add_of_le hn
    obtain ⟨s, hs, hge, hsc⟩ := key k
    rw [show 2 + k = k + 2 from by omega]
    exact ⟨s, hs, by linarith, hsc⟩
  · rw [idleRun_123]

/-- Witness for C5's amended theorem at `n = 5`. -/
theorem idle_spin_enables_emission_witness :
    2 ≤ 5 ∧ ∃ s : ℚ, (idleMotionN 5).rotationSpeed = FP.val s ∧ 0.01 < s ∧
      (idleMotionN 5).scattered = false :=
  ⟨by decide, idle_spin_enables_emission.1 5 (by decide)⟩

/-- C6 counterexample: with the hand present and a NaN distance, the
scatter intensity handed to the beads is `NaN × 5 = NaN` — the core
neither clamps nor ignores the malformed value, so a listed downstream
quantity does become NaN. -/
theorem scatterIntensity_nan : scatterIntensity true FP.nan = FP.nan := rfl

/-- C6 (amended): malformed distances are neither clamped nor ignored,
but they cannot poison the smoothed state: with the hand present, a NaN
distance falls into the intermediate branch and a negative distance
into the pinch branch, both with `scattered = false` and a speed update
built from constants only, so the rotation speed stays a genuine number
in `[0, 2]` under arbitrary input sequences; the scatter intensity
computed from a NaN distance is NaN, but the per-letter update ignores
the intensity whenever `scattered` is false. -/
theorem malformed_distance_tolerated :
    (∀ m : MotionState, motionStep true FP.nan m =
      ⟨fpLerp m.rotationSpeed (FP.val 0) (FP.val 0.05), false⟩) ∧
    (∀ (q : ℚ) (m : MotionState), q < 0 →
      motionStep true (FP.val q) m =
        ⟨fpLerp m.rotationSpeed (FP.val 2.0) (FP.val 0.05), false⟩) ∧
    (∀ frames : List HandSignal, ∃ s : ℚ,
      (motionRun frames initMotion).rotationSpeed = FP.val s ∧
        0 ≤ s ∧ s ≤ 2) ∧
    (∀ (sine : ℚ → ℚ) (normalize : Vec3 → Vec3) (i1 i2 time : ℚ) (i : ℕ)
      (restPos : Vec3) (rrx rry : ℚ) (st : LetterState),
      beadLetterStep sine normalize false i1 time i restPos rrx rry st =
        beadLetterStep sine normalize false i2 time i restPos rrx rry st) := by
  refine ⟨fun m => rfl, ?_,
    fun frames => motionRun_bounded frames initMotion ⟨0, rfl, le_rfl,
      by norm_num⟩,
    fun _ _ _ _ _ _ _ _ _ _ => rfl⟩
  intro q m hq
  have h1 : FP.gt (FP.val q) (FP.val SCATTER_THRESHOLD) = false := by
    simp only [FP.gt, SCATTER_THRESHOLD, decide_eq_false_iff_not, not_lt]
    norm_num
    linarith
  have h2 : FP.lt (FP.val q) (FP.val PINCH_THRESHOLD) = true := by
    simp only [FP.lt, PINCH_THRESHOLD, decide_eq_true_eq]
    norm_num
    linarith
  simp [motionStep, h1, h2]

/-- Witness for C6's amended theorem at a concrete negative distance. -/
theorem malformed_distance_tolerated_witness :
    ((-1 : ℚ) < 0) ∧ motionStep true (FP.val (-1)) initMotion =
      ⟨fpLerp (FP.val 0) (FP.val 2.0) (FP.val 0.05), false⟩ :=
  ⟨by decide, malformed_distance_tolerated.2.1 (-1) initMotion (by decide)⟩

theorem distInf_nonneg (a b : Vec3) : 0 ≤ distInf a b :=
  le_trans (abs_nonneg _) (le_max_left _ _)

theorem distInf_lerpV_le (p r : Vec3) :
    distInf (lerpV p r 0.15) r ≤ 0.85 * distInf p r := by
  have habs : ∀ x y : ℚ, |x + (y - x) * 0.15 - y| = 0.85 * |x - y| := by
    intro x y
    rw [show x + (y - x) * 0.15 - y = 0.85 * (x - y) by ring, abs_mul,
      abs_of_nonneg (by norm_num : (0 : ℚ) ≤ 0.85)]
  unfold distInf lerpV
  simp only [habs]
  refine max_le ?_ (max_le ?_ ?_)
  · exact mul_le_mul_of_nonneg_left (le_max_left _ _) (by norm_num)
  · exact mul_le_mul_of_nonneg_left
      (le_trans (le_max_left _ _) (le_max_right _ _)) (by norm_num)
  · exact mul_le_mul_of_nonneg_left
      (le_trans (le_max_right _ _) (le_max_right _ _)) (by norm_num)

theorem letterRun_append (sine : ℚ → ℚ) (normalize : Vec3 → Vec3) (i : ℕ)
    (restPos : Vec3) (rrx rry : ℚ) (l1 l2 : List LetterFrameIn)
    (st : LetterState) :
    letterRun sine normalize i restPos rrx rry (l1 ++ l2) st =
      letterRun sine normalize i restPos rrx rry l2
        (letterRun sine normalize i restPos rrx rry l1 st) := by
  simp [letterRun, List.foldl_append]

theorem letterRun_reform_le (sine : ℚ → ℚ) (normalize : Vec3 → Vec3) (i : ℕ)
    (restPos : Vec3) (rrx rry : ℚ) (post : List LetterFrameIn)
    (st : LetterState) (hall : ∀ f ∈ post, f.scattered = false) :
    distInf (letterRun sine normalize i restPos rrx rry post st).pos
        restPos ≤ 0.85 ^ post.length * distInf st.pos restPos := by
  induction post generalizing st with
  | nil => simp [letterRun]
  | cons f fs ih =>
    have hf : f.scattered = false := hall f (List.mem_cons_self f fs)
    have hfs : ∀ g ∈ fs, g.scattered = false :=
      fun g hg => hall g (List.mem_cons_of_mem _ hg)
    have hstep : beadLetterStep sine normalize f.scattered f.intensity f.time
        i restPos rrx rry st =
        { pos := lerpV st.pos restPos 0.15
          rotX := qlerp st.rotX rrx 0.1
          rotY := qlerp st.rotY rry 0.1 } := by
      rw [hf]
      rfl
    have h1 : letterRun sine normalize i restPos rrx rry (f :: fs) st =
        letterRun sine normalize i restPos rrx rry fs
          { pos := lerpV st.pos restPos 0.15
            rotX := qlerp st.rotX rrx 0.1
            rotY := qlerp st.rotY rry 0.1 } := by
      simp only [letterRun, List.foldl_cons, hstep]
    rw [h1]
    calc distInf (letterRun sine normalize i restPos rrx rry fs
          { pos := lerpV st.pos restPos 0.15
            rotX := qlerp st.rotX rrx 0.1
            rotY := qlerp st.rotY rry 0.1 }).pos restPos
        ≤ 0.85 ^ fs.length * distInf (lerpV st.pos restPos 0.15) restPos :=
          ih _ hfs
      _ ≤ 0.85 ^ fs.length * (0.85 * distInf st.pos restPos) :=
          mul_le_mul_of_nonneg_left (distInf_lerpV_le _ _)
            (pow_nonneg (by norm_num) _)
      _ = 0.85 ^ (f :: fs).length * distInf st.pos restPos := by
          rw [List.length_cons, pow_succ]
          ring

/-- C9: round-trip — after any frames with `scattered = true` (any
intensities and times), running with `scattered = false` for enough
frames brings the letter's position back within any `ε > 0` of its rest
position. -/
theorem scatter_reform_roundtrip (sine : ℚ → ℚ) (normalize : Vec3 → Vec3)
    (i : ℕ) (restPos : Vec3) (rrx rry : ℚ) (st0 : LetterState)
    (pre : List LetterFrameIn) (hpre : ∀ f ∈ pre, f.scattered = true)
    (ε : ℚ) (hε : 0 < ε) :
    ∃ N : ℕ, ∀ post : List LetterFrameIn,
      (∀ f ∈ post, f.scattered = false) → N ≤ post.length →
      distInf (letterRun sine normalize i restPos rrx rry (pre ++ post)
        st0).pos restPos < ε := by
  set D := distInf (letterRun sine normalize i restPos rrx rry pre st0).pos
    restPos with hD
  have hD0 : 0 ≤ D := distInf_nonneg _ _
  have hD1 : (0 : ℚ) < D + 1 := by linarith
  obtain ⟨N, hN⟩ := exists_pow_lt_of_lt_one (div_pos hε hD1)
    (by norm_num : (0.85 : ℚ) < 1)
  refine ⟨N, fun post hpost hlen => ?_⟩
  rw [letterRun_append]
  have h1 := letterRun_reform_le sine normalize i restPos rrx rry post
    (letterRun sine normalize i restPos rrx rry pre st0) hpost
  have h2 : (0.85 : ℚ) ^ post.length ≤ 0.85 ^ N :=
    pow_le_pow_of_le_one (by norm_num) (by norm_num) hlen
  have h3 : (0.85 : ℚ) ^ N * (D + 1) < ε := (lt_div_iff₀ hD1).mp hN
  have h4 : (0 : ℚ) ≤ 0.85 ^ N := pow_nonneg (by norm_num) N
  calc distInf (letterRun sine normalize i restPos rrx rry post
        (letterRun sine normalize i restPos rrx rry pre st0)).pos restPos
      ≤ 0.85 ^ post.length * D := h1
    _ ≤ 0.85 ^ N * D := mul_le_mul_of_nonneg_right h2 hD0
    _ ≤ 0.85 ^ N * (D + 1) := by nlinarith
    _ < ε := h3

/-- Witness for C9 at a concrete letter, empty scatter phase and ε = 1. -/
theorem scatter_reform_roundtrip_witness :
    (∀ f ∈ ([] : List LetterFrameIn), f.scattered = true) ∧ (0 : ℚ) < 1 ∧
      ∃ N : ℕ, ∀ post : List LetterFrameIn,
        (∀ f ∈ post, f.scattered = false) → N ≤ post.length →
        distInf (letterRun (fun _ => 0) (fun v => v) 0 ⟨0, 0, 0⟩ 0 0
          ([] ++ post) ⟨⟨1, 1, 1⟩, 0, 0⟩).pos ⟨0, 0, 0⟩ < 1 :=
  ⟨by simp, by decide, scatter_reform_roundtrip (fun _ => 0) (fun v => v) 0
    ⟨0, 0, 0⟩ 0 0 ⟨⟨1, 1, 1⟩, 0, 0⟩ [] (by simp) 1 (by decide)⟩

/-- Witness for C10 at concrete distance sequences of equal length. -/
theorem noHand_noninterference_witness :
    ([FP.val 0.5, FP.nan] : List FP).length =
        ([FP.val (-3), FP.val 9] : List FP).length ∧
      (motionRun ([FP.val 0.5, FP.nan].map fun d => ⟨d, false⟩) initMotion =
        motionRun ([FP.val (-3), FP.val 9].map fun d => ⟨d, false⟩) initMotion ∧
      ∀ d : FP, scatterIntensity false d = FP.val 0) :=
  ⟨rfl, noHand_noninterference initMotion [FP.val 0.5, FP.nan]
    [FP.val (-3), FP.val 9] rfl⟩
